import Mathlib

/-!
Verification development for the neurosymbolic storyteller engine
(`src/storyteller_engine.py`).  The Python source is shallowly embedded:
pure data become Lean structures, mutation becomes functional update,
the external generation / recognition / persistence services become
oracle parameters, and the regular expressions of the source are
implemented as executable character-list matchers that follow the
backtracking behaviour of the concrete patterns.
-/

namespace Storyteller

/-- ASCII model of the regex class `\w` (`[A-Za-z0-9_]`). -/
def isWordChar (c : Char) : Bool := c.isAlphanum || c == '_'

/-- ASCII model of the regex class `\s`. -/
def isSpaceChar (c : Char) : Bool :=
  c == ' ' || c == '\t' || c == '\n' || c == '\r' || c == '\x0b' || c == '\x0c'

/-- Lower-cased character list of a string (model of Python `str.lower()`
restricted to ASCII, which is all the source patterns use). -/
def lowerChars (s : String) : List Char := s.toList.map Char.toLower

/-- Model of Python `str.strip()`: drop whitespace from both ends. -/
def pyStrip (s : String) : String :=
  String.mk (((s.toList.dropWhile isSpaceChar).reverse.dropWhile isSpaceChar).reverse)

/-- Split a character list at every occurrence of `'.'`, keeping empty
chunks (model of Python `text.split('.')`). -/
def splitDotAux : List Char → List (List Char)
  | [] => [[]]
  | c :: rest =>
    match splitDotAux rest with
    | [] => [[]]
    | h :: t => if c = '.' then [] :: h :: t else (c :: h) :: t

def pySplitDot (s : String) : List String :=
  (splitDotAux s.toList).map (fun l => String.mk l)

/-- `p` occurs as a contiguous sublist of `l` (model of Python `in` for
strings and of `re.search` for a literal pattern). -/
def subListOf (p l : List Char) : Bool :=
  (List.range (l.length + 1)).any (fun i => p.isPrefixOf (l.drop i))

/-- Case-insensitive: the lower-cased pattern `pat` (given already in
lower case) is a prefix of `l` compared lower-cased. -/
def ciPrefix (pat : String) (l : List Char) : Bool :=
  pat.toList.isPrefixOf (l.map Char.toLower)

/-! ### Data model: `Character`, `StoryViolation`, `StoryState`

The `@dataclass Character` of the source.  `traits: List[str] = None`
is normalised to `[]` by `__post_init__`, so the embedded default is
`[]` directly. -/

@[ext]
structure Character where
  name : String
  status : String := "alive"
  location : String := "unknown"
  traits : List String := []
  last_mentioned : Nat := 0
deriving DecidableEq

/-- A fresh `Character(name=name)` with all dataclass defaults. -/
def Character.mkDefault (name : String) : Character :=
  { name := name }

/-- Dynamic values passed as `**kwargs` to `add_character`.  The source
passes strings, string lists and ints; this universe covers the values
the repository ever supplies (Python could also store an ill-typed
value in a field, a corner the claims never exercise and which the
embedding excludes via the `wellTypedField` side condition below). -/
inductive FieldVal where
  | str : String → FieldVal
  | nat : Nat → FieldVal
  | strList : List String → FieldVal
deriving DecidableEq

/-- The attribute names a `Character` object has (model of
`hasattr(char, key)` for the dataclass fields). -/
def knownFieldNames : List String :=
  ["name", "status", "location", "traits", "last_mentioned"]

def Character.hasattrField (key : String) : Bool :=
  knownFieldNames.contains key

/-- Model of `setattr(char, key, value)` for the dataclass fields: a
type-correct value is stored in the named field, anything else leaves
the object unchanged. -/
def Character.setattr (c : Character) (key : String) (v : FieldVal) : Character :=
  if key = "name" then
    match v with | FieldVal.str s => { c with name := s } | _ => c
  else if key = "status" then
    match v with | FieldVal.str s => { c with status := s } | _ => c
  else if key = "location" then
    match v with | FieldVal.str s => { c with location := s } | _ => c
  else if key = "traits" then
    match v with | FieldVal.strList l => { c with traits := l } | _ => c
  else if key = "last_mentioned" then
    match v with | FieldVal.nat n => { c with last_mentioned := n } | _ => c
  else c

/-- The `for key, value in kwargs.items(): if hasattr(char, key):
setattr(char, key, value)` loop of `StoryState.add_character`. -/
def applyKwargs (c : Character) (kwargs : List (String × FieldVal)) : Character :=
  kwargs.foldl (fun c p => if Character.hasattrField p.1 then c.setattr p.1 p.2 else c) c

/-- Keyword arguments `Character.__init__` accepts besides the
positionally supplied `name`. -/
def createKeys : List String := ["status", "location", "traits", "last_mentioned"]

/-- Field assignment performed by `Character(name=name, **kwargs)`:
defaults, then the keyword arguments. -/
def initKwargs (c : Character) (kwargs : List (String × FieldVal)) : Character :=
  kwargs.foldl (fun c p => c.setattr p.1 p.2) c

/-- Model of `Character(name=name, **kwargs)`: a keyword argument whose
name is not a dataclass field (or which collides with `name`) raises a
`TypeError`. -/
def mkCharacter (name : String) (kwargs : List (String × FieldVal)) : Except String Character :=
  if kwargs.all (fun kv => createKeys.contains kv.1) then
    Except.ok (initKwargs (Character.mkDefault name) kwargs)
  else
    Except.error "TypeError: unexpected keyword argument"

/-- The `@dataclass StoryViolation` of the source. -/
structure StoryViolation where
  rule_name : String
  severity : String
  description : String
  sentence_idx : Option Nat := none
  suggestion : String := ""
deriving DecidableEq

/-- `StoryState.__init__`.  The insertion-ordered dict
`characters: Dict[str, Character]` is an association list keyed by
name; the set `locations` is an insertion-ordered duplicate-free
list. -/
structure StoryState where
  characters : List (String × Character)
  events : List String
  world_facts : List (String × String)
  locations : List String
  genre : String
deriving DecidableEq

def StoryState.empty : StoryState :=
  { characters := [], events := [], world_facts := [], locations := [], genre := "general" }

/-- Dict lookup `self.characters[name]` / membership `name in self.characters`. -/
def lookupChar (s : StoryState) (name : String) : Option Character :=
  (s.characters.find? (fun kv => kv.1 == name)).map Prod.snd

/-- The key set of the character dict, in insertion order. -/
def charNames (s : StoryState) : List String := s.characters.map Prod.fst

/-- The `status` field of a character, when present. -/
def statusOf (s : StoryState) (name : String) : Option String :=
  (lookupChar s name).map Character.status

/-- `StoryState.add_character(name, **kwargs)`: update the existing
character field-by-field through `hasattr`/`setattr`, or construct a
fresh `Character` (which raises `TypeError` on an unknown keyword). -/
def StoryState.add_character (s : StoryState) (name : String)
    (kwargs : List (String × FieldVal)) : Except String StoryState :=
  match lookupChar s name with
  | some _ =>
      Except.ok { s with characters :=
        (s.characters.map (fun kv =>
          if kv.1 == name then (kv.1, applyKwargs kv.2 kwargs) else kv)) }
  | none =>
      (mkCharacter name kwargs).map
        (fun c => { s with characters := s.characters ++ [(name, c)] })

/-- `add_character` as invoked by the parser.  The parser only ever
supplies valid field names, so the error branch is unreachable there
(`addCharTotal_parser_ok` below); the fallback keeps the function
total. -/
def addCharTotal (s : StoryState) (name : String)
    (kwargs : List (String × FieldVal)) : StoryState :=
  match s.add_character name kwargs with
  | Except.ok s2 => s2
  | Except.error _ => s

/-- `set.add` on the location set (insertion-ordered model). -/
def insertLoc (locs : List String) (x : String) : List String :=
  if locs.contains x then locs else locs ++ [x]

/-- `story_state.characters[name].status = "dead"`. -/
def setStatusDead (s : StoryState) (name : String) : StoryState :=
  { s with characters :=
      s.characters.map (fun kv =>
        if kv.1 == name then (kv.1, { kv.2 with status := "dead" }) else kv) }

/-- Value-level snapshot returned by `StoryState.to_dict` (§ the field
*contents*; which of them are aliased with the live state is analysed
separately in the reference-semantics model below). -/
structure StateDict where
  characters : List (String × Character)
  events : List String
  world_facts : List (String × String)
  locations : List String
  genre : String
deriving DecidableEq

def StoryState.to_dict (s : StoryState) : StateDict :=
  { characters := s.characters, events := s.events, world_facts := s.world_facts,
    locations := s.locations, genre := s.genre }

/-! ### Entity extraction (`StoryParser`)

The spaCy pipeline is an external service: it is modelled as an oracle
providing sentence segmentation (`doc.sents`, trimmed by the caller)
and per-sentence named entities (`sent_doc.ents` as span text with
label). -/

structure Nlp where
  sents : String → List String
  ents : String → List (String × String)

/-- Alternatives of the first death pattern
`(\w+)\s+(died|was killed|perished|passed away)`, in regex order. -/
def deathAlts1 : List String := ["died", "was killed", "perished", "passed away"]

/-- Try `(\w+)\s+(died|was killed|perished|passed away)` (IGNORECASE) at
position `i`.  Since `\w` and `\s` are disjoint and every alternative
starts with a letter, greedy matching without backtracking is exact:
the capture is the maximal word run at `i`, then at least one space,
then an alternative compared case-insensitively.  Returns the captured
group (original case, as `match.group(1)`) and the end position. -/
def matchDeath1At (l : List Char) (i : Nat) : Option (String × Nat) :=
  let rest := l.drop i
  let w := rest.takeWhile isWordChar
  if w.isEmpty then none else
  let rest2 := rest.drop w.length
  let sp := rest2.takeWhile isSpaceChar
  if sp.isEmpty then none else
  let rest3 := rest2.drop sp.length
  match deathAlts1.find? (fun a => ciPrefix a rest3) with
  | some a => some (String.mk w, i + w.length + sp.length + a.length)
  | none => none

/-- Try `(\w+)\s+is\s+(dead|deceased)` (IGNORECASE) at position `i`. -/
def matchDeath2At (l : List Char) (i : Nat) : Option (String × Nat) :=
  let rest := l.drop i
  let w := rest.takeWhile isWordChar
  if w.isEmpty then none else
  let rest2 := rest.drop w.length
  let sp := rest2.takeWhile isSpaceChar
  if sp.isEmpty then none else
  let rest3 := rest2.drop sp.length
  if ciPrefix "is" rest3 then
    let rest4 := rest3.drop 2
    let sp2 := rest4.takeWhile isSpaceChar
    if sp2.isEmpty then none else
    let rest5 := rest4.drop sp2.length
    match (["dead", "deceased"] : List String).find? (fun a => ciPrefix a rest5) with
    | some a => some (String.mk w, i + w.length + sp.length + 2 + sp2.length + a.length)
    | none => none
  else none

/-- `re.finditer` scan: try the pattern at each position from the left,
emit the capture of each (non-overlapping) match and resume at its end.
The fuel argument is `l.length + 1`; the position strictly increases
each step, so the fuel never runs out. -/
def finditerGo (matchAt : List Char → Nat → Option (String × Nat))
    (l : List Char) : Nat → Nat → List String
  | 0, _ => []
  | fuel+1, i =>
    if i < l.length then
      match matchAt l i with
      | some (cap, j) => cap :: finditerGo matchAt l fuel (if j ≤ i then i + 1 else j)
      | none => finditerGo matchAt l fuel (i + 1)
    else []

def finditerCaptures (matchAt : List Char → Nat → Option (String × Nat))
    (l : List Char) : List String :=
  finditerGo matchAt l (l.length + 1) 0

/-- All group-1 captures of the two `death_patterns` over a sentence,
first pattern first (the order the source iterates them). -/
def deathCaptures (sentence : String) : List String :=
  finditerCaptures matchDeath1At sentence.toList
    ++ finditerCaptures matchDeath2At sentence.toList

/-- The death-pattern loop body: for each captured name, if it is a key
of the character dict, set that character's status to "dead". -/
def applyDeaths (s : StoryState) (names : List String) : StoryState :=
  names.foldl (fun s n => if (lookupChar s n).isSome then setStatusDead s n else s) s

/-- The entity loop of `_advanced_parse`: PERSON entities are
registered with `last_mentioned=idx`, GPE/LOC spans are added to the
location set. -/
def registerEnts (s : StoryState) (idx : Nat) (ents : List (String × String)) : StoryState :=
  ents.foldl (fun s e =>
    if e.2 == "PERSON" then
      addCharTotal s (pyStrip e.1) [("last_mentioned", FieldVal.nat idx)]
    else if e.2 == "GPE" || e.2 == "LOC" then
      { s with locations := insertLoc s.locations (pyStrip e.1) }
    else s) s

/-- One iteration of the sentence loop of `_advanced_parse`: entity
registration runs before the death-pattern update. -/
def processSentence (nlp : Nlp) (s : StoryState) (idx : Nat) (sentence : String) : StoryState :=
  applyDeaths (registerEnts s idx (nlp.ents sentence)) (deathCaptures sentence)

/-- `for idx, sentence in enumerate(sentences)`. -/
def parseSentences (nlp : Nlp) : List String → Nat → StoryState → StoryState
  | [], _, s => s
  | sentence :: rest, idx, s =>
      parseSentences nlp rest (idx + 1) (processSentence nlp s idx sentence)

/-- `StoryParser._advanced_parse`. -/
def advancedParse (nlp : Nlp) (text : String) (s : StoryState) : StoryState :=
  parseSentences nlp ((nlp.sents text).map pyStrip) 0 s

/-- `re.findall(r'\b[A-Z][a-z]+\b', text)`: a match is an upper-case
letter at a word boundary followed by a maximal non-empty run of
lower-case letters, itself followed by a word boundary.  (Greedy
matching is exact here: shrinking the `[a-z]+` run would place the
required boundary between two word characters.) -/
def simpleFindGo (l : List Char) : Nat → Nat → List String
  | 0, _ => []
  | fuel+1, i =>
    if i < l.length then
      let c := l.getD i ' '
      if (i = 0 ∨ isWordChar (l.getD (i-1) ' ') = false) ∧ c.isUpper then
        let run := (l.drop (i+1)).takeWhile Char.isLower
        let j := i + 1 + run.length
        if 1 ≤ run.length ∧ (l.length ≤ j ∨ isWordChar (l.getD j ' ') = false) then
          String.mk (c :: run) :: simpleFindGo l fuel j
        else simpleFindGo l fuel (i+1)
      else simpleFindGo l fuel (i+1)
    else []

def findallNames (text : String) : List String :=
  simpleFindGo text.toList (text.toList.length + 1) 0

/-- `set(names)`: duplicate-free, modelled in first-occurrence order
(the Python set iteration order is unspecified; no theorem below
depends on the chosen order). -/
def dedupFirst (l : List String) : List String :=
  l.foldl (fun acc x => if acc.contains x then acc else acc ++ [x]) []

/-- The stoplist of `_simple_parse`. -/
def stopWords : List String := ["The", "A", "An", "This", "That"]

/-- `StoryParser._simple_parse`: register each capitalised token not in
the stoplist as a character with all defaults.  Note it performs no
death-pattern detection, no location detection and no
`last_mentioned` update. -/
def simpleParse (text : String) (s : StoryState) : StoryState :=
  (dedupFirst (findallNames text)).foldl (fun s name =>
    if 1 < name.length ∧ stopWords.contains name = false then
      addCharTotal s name []
    else s) s

/-- `StoryParser.parse_story`: strategy selection on availability of
the recognition service (`self.nlp`). -/
def parse_story (nlpO : Option Nlp) (text : String) (s : StoryState) : StoryState :=
  match nlpO with
  | some nlp => advancedParse nlp text s
  | none => simpleParse text s

/-! ### Rule engine (`SymbolicValidator`)

A rule is a function of (text, state); a rule body that raises is an
`Except.error`.  `validate` evaluates the registered rules in order
inside `try/except`, so a failing rule contributes no violations and
never aborts the evaluation. -/

def Rule := String → StoryState → Except String (List StoryViolation)

/-- The `try/except` body of `validate`: the rule's violations, or none
when the rule raised (the exception is caught and logged). -/
def ruleOutput (text : String) (s : StoryState) (r : String × Rule) :
    List StoryViolation :=
  match r.2 text s with
  | Except.ok vs => vs
  | Except.error _ => []

/-- `SymbolicValidator.validate`. -/
def validate (rules : List (String × Rule)) (text : String) (s : StoryState) :
    List StoryViolation :=
  rules.foldl (fun acc r => acc ++ ruleOutput text s r) []

/-- The fixed action-verb patterns of `_check_character_death`. -/
def activePatterns (name : String) : List String :=
  [name ++ " said", name ++ " walked", name ++ " ran", name ++ " looked"]

def deathViolation (name : String) (idx : Nat) : StoryViolation :=
  { rule_name := "character_death", severity := "high",
    description := "Dead character \x27" ++ name ++ "\x27 is performing actions",
    sentence_idx := some idx,
    suggestion := "Remove action by " ++ name ++ " or revive the character first" }

/-- `SymbolicValidator._check_character_death`: for each sentence
(`text.split('.')`), for each character currently dead (dict order),
for each action pattern, flag a high-severity violation on a
case-insensitive substring hit. -/
def check_character_death (text : String) (s : StoryState) :
    Except String (List StoryViolation) :=
  Except.ok <| (pySplitDot text).enum.foldl (fun acc p =>
    acc ++ s.characters.foldl (fun acc2 kv =>
      if kv.2.status == "dead" then
        acc2 ++ (activePatterns kv.1).foldl (fun acc3 pat =>
          if subListOf (lowerChars pat) (lowerChars p.2) then
            acc3 ++ [deathViolation kv.1 p.1]
          else acc3) []
      else acc2) []) []

/-- `re.search(a + ".*" + b, text, IGNORECASE)` for literal `a`, `b`
with no newline in `b`: an occurrence of `a` followed, before the next
newline, by an occurrence of `b` (regex `.` does not match `\n`). -/
def dotStarCI (a b : String) (text : String) : Bool :=
  let l := lowerChars text
  (List.range (l.length + 1)).any (fun i =>
    a.toList.isPrefixOf (l.drop i) &&
    subListOf b.toList ((l.drop (i + a.length)).takeWhile (fun c => c ≠ '\n')))

/-- `re.search(pat, text, IGNORECASE)` for a literal lower-case `pat`. -/
def searchCI (pat : String) (text : String) : Bool :=
  subListOf pat.toList (lowerChars text)

def temporalViolation : StoryViolation :=
  { rule_name := "temporal_consistency", severity := "medium",
    description := "Potentially confusing temporal sequence",
    suggestion := "Clarify the timeline of events" }

/-- `SymbolicValidator._check_temporal_consistency`: whole-document
check of the two `(pos, neg)` regex pairs, in table order. -/
def check_temporal_consistency (text : String) (_s : StoryState) :
    Except String (List StoryViolation) :=
  Except.ok <|
    (if searchCI "morning" text && dotStarCI "evening" "morning" text then
      [temporalViolation] else [])
    ++ (if searchCI "yesterday" text && dotStarCI "today" "yesterday" text then
      [temporalViolation] else [])

/-- `re.search(r"(\w+)<phrase>", text)` (case-sensitive, no flags):
some word character immediately followed by the literal phrase. -/
def wordThenPhrase (phrase : String) (text : String) : Bool :=
  let l := text.toList
  (List.range l.length).any (fun i =>
    isWordChar (l.getD i ' ') && phrase.toList.isPrefixOf (l.drop (i+1)))

/-- `SymbolicValidator._check_character_traits`.  The negative patterns
of its table are `r"\1 was cowardly"` / `r"\1 was short"`: standalone
patterns containing a backreference to a group they do not define.
Python's `re` raises `re.error: invalid group reference` when such a
pattern is compiled, and `re.search(neg_pattern, text)` is only reached
(via `and` short-circuiting) when the positive pattern matched.  Hence
the rule returns no violations when no positive pattern matches, and
raises (to be caught by `validate`) as soon as one does. -/
def check_character_traits (text : String) (_s : StoryState) :
    Except String (List StoryViolation) :=
  if wordThenPhrase " was brave" text then
    Except.error "re.error: invalid group reference 1 at position 1"
  else if wordThenPhrase " was tall" text then
    Except.error "re.error: invalid group reference 1 at position 1"
  else Except.ok []

/-- The rule registry built by `SymbolicValidator.__init__`, in
insertion order. -/
def validatorRules : List (String × Rule) :=
  [("character_death", check_character_death),
   ("temporal_consistency", check_temporal_consistency),
   ("character_consistency", check_character_traits)]

/-! ### Neural generation (`NeuralGenerator`)

`generate_story` is a call to the external generation service; its
internal ollama/mock fallback always produces *some* text without
raising, so a single oracle `String → String` captures every path.  In
the engine the oracle is additionally indexed by the number of calls
already made, so that successive calls may return different text and
the number of service calls is observable. -/

/-- `NeuralGenerator._format_feedback`. -/
def format_feedback (violations : List StoryViolation) : String :=
  String.intercalate "\n" (violations.foldl (fun acc v =>
    acc ++ ["- " ++ v.description]
        ++ (if v.suggestion = "" then [] else ["  Suggestion: " ++ v.suggestion])) [])

/-- The f-string prompt `improve_story` sends to the service. -/
def improvePrompt (original_story : String) (violations : List StoryViolation) : String :=
  "Please improve the following story by addressing these issues:\n\n"
    ++ format_feedback violations
    ++ "\n\nOriginal Story:\n" ++ original_story
    ++ "\n\nImproved Story (keep the same general plot but fix the issues):"

/-- `NeuralGenerator.improve_story`, instrumented with the number of
generation-service calls it performs (0 or 1). -/
def improve_story (g : String → String) (original_story : String)
    (violations : List StoryViolation) : String × Nat :=
  if violations = [] then (original_story, 0)
  else (g (improvePrompt original_story violations), 1)

/-! ### Refinement loop (`StorytellerEngine.generate_and_improve`)

Oracles: `gen n p` is the text the generation service returns for
prompt `p` on the engine's `n`-th service call; `store i` is the
outcome of `_store_iteration` for iteration number `i` (the sqlite
insert/commit, which the source wraps in no handler, so its error
propagates).  The loop returns the per-iteration records, the final
story, the final state, and — alongside the `Except` — the number of
generation calls made, which is observable even when a storage error
aborts the run. -/

structure IterationData where
  iteration : Nat
  story : String
  violations : List StoryViolation
  violation_count : Nat
  story_state : StateDict
deriving DecidableEq

structure EngineResult where
  prompt : String
  iterations : List IterationData
  final_story : String
  total_violations_fixed : Int
deriving DecidableEq

/-- The `for iteration in range(max_iterations)` loop.  `fuel` is the
number of remaining iterations (`max_iterations - iteration`), so the
source's stop test `iteration == max_iterations - 1` is `fuel = 1`,
i.e. the inner fuel is `0`. -/
def engineLoop (gen : Nat → String → String) (store : Nat → Except String Unit)
    (nlpO : Option Nlp) :
    Nat → Nat → String → StoryState → Nat →
      Except String (List IterationData × String × StoryState) × Nat
  | 0, _, story, st, calls => (Except.ok ([], story, st), calls)
  | fuel+1, idx, story, st, calls =>
    let st2 := parse_story nlpO story st
    let vs := validate validatorRules story st2
    let record : IterationData :=
      { iteration := idx + 1, story := story, violations := vs,
        violation_count := vs.length, story_state := st2.to_dict }
    match store (idx + 1) with
    | Except.error e => (Except.error e, calls)
    | Except.ok _ =>
      if vs = [] ∨ fuel = 0 then (Except.ok ([record], story, st2), calls)
      else
        let p := improve_story (gen calls) story vs
        match engineLoop gen store nlpO fuel (idx + 1) p.1 st2 (calls + p.2) with
        | (Except.error e, c) => (Except.error e, c)
        | (Except.ok (recs, fin, stF), c) => (Except.ok (record :: recs, fin, stF), c)

/-- The convergence metric set after the loop: `first - last` when
there is at least one iteration record (`if results['iterations']:`),
else the initialised `0`. -/
def fixedOf (recs : List IterationData) : Int :=
  match recs.head?, recs.getLast? with
  | some r0, some rl => (r0.violation_count : Int) - (rl.violation_count : Int)
  | _, _ => 0

/-- `StorytellerEngine.generate_and_improve`.  `maxIterations` is an
`Int` because the source never validates it; `range(n)` for `n ≤ 0` is
empty, which `Int.toNat` reproduces.  Note there is no validation of
the prompt or the bound anywhere: the initial generation call is made
unconditionally. -/
def generateAndImprove (gen : Nat → String → String)
    (store : Nat → Except String Unit) (nlpO : Option Nlp)
    (maxIterations : Int) (prompt : String) :
    Except String EngineResult × Nat :=
  let current := gen 0 prompt
  match engineLoop gen store nlpO maxIterations.toNat 0 current StoryState.empty 1 with
  | (Except.error e, c) => (Except.error e, c)
  | (Except.ok (recs, fin, _), c) =>
      (Except.ok { prompt := prompt, iterations := recs, final_story := fin,
                   total_violations_fixed := fixedOf recs }, c)

/-! ### Reference semantics of `StoryState.to_dict`

`to_dict` copies the character dict (`asdict` deep-copies each
dataclass) and the location set (`list(self.locations)`), but passes
the `events` list and the `world_facts` dict by reference
(`'events': self.events`, `'world_facts': self.world_facts`).  To make
the sharing observable the two objects that are passed by reference are
modelled as addresses into a heap, while the data `to_dict` copies are
immutable Lean values (a copy shares no structure, so value semantics
is exact for it). -/

structure Heap where
  lists : Nat → List String
  dicts : Nat → List (String × String)

def Heap.setList (h : Heap) (a : Nat) (v : List String) : Heap :=
  { h with lists := fun b => if b = a then v else h.lists b }

def Heap.setDict (h : Heap) (a : Nat) (v : List (String × String)) : Heap :=
  { h with dicts := fun b => if b = a then v else h.dicts b }

/-- A `StoryState` as a Python object: the mutable `events` and
`world_facts` members are heap references. -/
structure StoryStateH where
  characters : List (String × Character)
  eventsAddr : Nat
  worldFactsAddr : Nat
  locations : List String
  genre : String

/-- The dict `to_dict` returns, with the same reference/value split. -/
structure StateDictH where
  characters : List (String × Character)
  eventsAddr : Nat
  worldFactsAddr : Nat
  locations : List String
  genre : String

/-- `StoryState.to_dict` under reference semantics: characters and
locations are materialised values, `events`/`world_facts` keep the live
object's address. -/
def StoryStateH.to_dict (s : StoryStateH) : StateDictH :=
  { characters := s.characters, eventsAddr := s.eventsAddr,
    worldFactsAddr := s.worldFactsAddr, locations := s.locations, genre := s.genre }

/-- Reading the snapshot's `events` entry through the heap. -/
def StateDictH.eventsVal (d : StateDictH) (h : Heap) : List String :=
  h.lists d.eventsAddr

/-- Reading the snapshot's `world_facts` entry through the heap. -/
def StateDictH.factsVal (d : StateDictH) (h : Heap) : List (String × String) :=
  h.dicts d.worldFactsAddr

/-- Mutating the live state: `state.events.append(e)`. -/
def StoryStateH.appendEvent (s : StoryStateH) (h : Heap) (e : String) : Heap :=
  h.setList s.eventsAddr (h.lists s.eventsAddr ++ [e])

/-- Last-write-wins update of an association list (dict assignment). -/
def upsertFact (facts : List (String × String)) (k v : String) : List (String × String) :=
  if facts.any (fun kv => kv.1 == k) then
    facts.map (fun kv => if kv.1 == k then (k, v) else kv)
  else facts ++ [(k, v)]

/-- Mutating the live state: `state.world_facts[k] = v`. -/
def StoryStateH.setFact (s : StoryStateH) (h : Heap) (k v : String) : Heap :=
  h.setDict s.worldFactsAddr (upsertFact (h.dicts s.worldFactsAddr) k v)

/-! ### Concrete instances used by the checks below -/

/-- A rule that reports one fixed violation. -/
def demoV1 : StoryViolation :=
  { rule_name := "rule_a", severity := "high", description := "issue a" }

def demoV2 : StoryViolation :=
  { rule_name := "rule_c", severity := "medium", description := "issue c",
    suggestion := "fix c" }

def demoRuleA : Rule := fun _ _ => Except.ok [demoV1]

/-- A rule forced to fail. -/
def demoRuleBad : Rule := fun _ _ => Except.error "boom"

def demoRuleC : Rule := fun _ _ => Except.ok [demoV2]

/-- A recognition-service oracle: the whole text is one sentence, and
the sentence "Bob died." contains the PERSON entity "Bob". -/
def demoNlp : Nlp :=
  { sents := fun t => [t],
    ents := fun s => if s == "Bob died." then [("Bob", "PERSON")] else [] }

/-- A storage oracle that always succeeds. -/
def okStore : Nat → Except String Unit := fun _ => Except.ok ()

/-- First generated story: triggers the first temporal pair once. -/
def storyA : String := "morning came. in the evening the morning fog returned."

/-- Revised story: triggers both temporal pairs. -/
def storyB : String := storyA ++ " yesterday was quiet. today, yesterday felt far."

/-- A generation oracle whose initial story is `storyA` and whose
revision is `storyB` (more violations than the original). -/
def demoGen : Nat → String → String := fun n _ => if n = 0 then storyA else storyB

/-- A state with one character and one location, for monotonicity
witnesses. -/
def demoState : StoryState :=
  { characters := [("A", Character.mkDefault "A")], events := [], world_facts := [],
    locations := ["L"], genre := "general" }

def dummyIter : IterationData :=
  { iteration := 0, story := "", violations := [], violation_count := 0,
    story_state := StoryState.empty.to_dict }

/-- The result of the demonstration run used for the convergence-metric
check: two iterations, one violation in the first, two in the second. -/
def demoRun : Except String EngineResult × Nat :=
  generateAndImprove demoGen okStore none 2 "p"

def demoRes : EngineResult :=
  demoRun.1.toOption.getD { prompt := "", iterations := [], final_story := "",
                            total_violations_fixed := 0 }

def demoR0 : IterationData := demoRes.iterations.head?.getD dummyIter

def demoRl : IterationData := demoRes.iterations.getLast?.getD dummyIter

/-- The overwrite-or-default helpers used to *state* the merge
semantics of `add_character`: the last type-correct value supplied for
`key`, or the default `d`. -/
def ovStr (kwargs : List (String × FieldVal)) (key : String) (d : String) : String :=
  kwargs.foldl (fun d p =>
    match p.2 with
    | FieldVal.str v => if p.1 = key then v else d
    | _ => d) d

def ovList (kwargs : List (String × FieldVal)) (key : String) (d : List String) :
    List String :=
  kwargs.foldl (fun d p =>
    match p.2 with
    | FieldVal.strList v => if p.1 = key then v else d
    | _ => d) d

def ovNat (kwargs : List (String × FieldVal)) (key : String) (d : Nat) : Nat :=
  kwargs.foldl (fun d p =>
    match p.2 with
    | FieldVal.nat v => if p.1 = key then v else d
    | _ => d) d

/-- A supplied field is type-correct for the field name it targets
(unknown names are unrestricted: Python ignores or rejects them by
name, never reading the value). -/
def wellTypedField : String × FieldVal → Bool
  | ("name", FieldVal.str _) => true
  | ("name", _) => false
  | ("status", FieldVal.str _) => true
  | ("status", _) => false
  | ("location", FieldVal.str _) => true
  | ("location", _) => false
  | ("traits", FieldVal.strList _) => true
  | ("traits", _) => false
  | ("last_mentioned", FieldVal.nat _) => true
  | ("last_mentioned", _) => false
  | _ => true

/-- An empty heap and a state whose events list lives at address 0 and
whose world-facts dict lives at address 1. -/
def heap0 : Heap := { lists := fun _ => [], dicts := fun _ => [] }

def stateH0 : StoryStateH :=
  { characters := [], eventsAddr := 0, worldFactsAddr := 1, locations := [],
    genre := "general" }

/-! ## Theorems -/

/-- Evaluating the registered rules folds to the concatenation of the
per-rule outputs. -/
theorem validate_eq_join (rules : List (String × Rule)) (text : String) (s : StoryState) :
    validate rules text s = (rules.map (ruleOutput text s)).flatten := by
  suffices h : ∀ (rs : List (String × Rule)) (acc : List StoryViolation),
      rs.foldl (fun acc r => acc ++ ruleOutput text s r) acc
        = acc ++ (rs.map (ruleOutput text s)).flatten by
    simpa [validate] using h rules []
  intro rs
  induction rs with
  | nil => intro acc; simp
  | cons r rest ih => intro acc; simp [ih]

/-- C2: for every text, state and rule set, `validate` returns exactly
the concatenation, in registration order, of the violations of the
rules that do not raise; a rule that raises contributes zero violations
and does not abort the evaluation (in particular, deleting a failing
rule from the registry does not change the result). -/
theorem validate_isolates_failing_rules (rules : List (String × Rule))
    (text : String) (s : StoryState) :
    validate rules text s = (rules.map (ruleOutput text s)).flatten ∧
    (∀ (pre post : List (String × Rule)) (bad : String × Rule) (e : String),
      bad.2 text s = Except.error e →
      validate (pre ++ bad :: post) text s
        = validate pre text s ++ validate post text s) := by
  refine ⟨validate_eq_join rules text s, ?_⟩
  intro pre post bad e hbad
  simp [validate_eq_join, ruleOutput, hbad]

/-- Witness for C2 at a concrete registry with a failing middle rule. -/
theorem validate_isolates_failing_rules_witness :
    validate [("a", demoRuleA), ("bad", demoRuleBad), ("c", demoRuleC)] "t" StoryState.empty
      = validate [("a", demoRuleA)] "t" StoryState.empty
        ++ validate [("c", demoRuleC)] "t" StoryState.empty ∧
    validate [("a", demoRuleA), ("bad", demoRuleBad), ("c", demoRuleC)] "t" StoryState.empty
      = [demoV1, demoV2] := by
  refine ⟨?_, by decide⟩
  exact (validate_isolates_failing_rules
    [("a", demoRuleA), ("bad", demoRuleBad), ("c", demoRuleC)] "t" StoryState.empty).2
    [("a", demoRuleA)] [("c", demoRuleC)] ("bad", demoRuleBad) "boom" rfl

/-- C10: `improve_story` with an empty violation list returns the
original story without calling the generation service, and with a
non-empty list makes exactly one generation request on the formatted
feedback prompt. -/
theorem improve_story_contract (g : String → String) (original : String)
    (vs : List StoryViolation) :
    (vs = [] → improve_story g original vs = (original, 0)) ∧
    (vs ≠ [] → improve_story g original vs = (g (improvePrompt original vs), 1)) := by
  constructor <;> intro h <;> simp [improve_story, h]

/-- Witness for C10 at an empty and a singleton violation list. -/
theorem improve_story_contract_witness :
    improve_story (fun _ => "new") "orig" [] = ("orig", 0) ∧
    improve_story (fun _ => "new") "orig" [demoV1] = ("new", 1) := by
  refine ⟨(improve_story_contract (fun _ => "new") "orig" []).1 rfl, ?_⟩
  rw [(improve_story_contract (fun _ => "new") "orig" [demoV1]).2 (by decide)]

/-- C4 (counterexample): the snapshot `to_dict` returns shares the
live `events` list: appending to the live state's event log after
taking the snapshot changes what the snapshot holds, so the snapshot
does share mutable structure with the live state. -/
theorem to_dict_shares_events_counterexample :
    (stateH0.to_dict).eventsVal (stateH0.appendEvent heap0 "the dragon appeared")
      = ["the dragon appeared"] ∧
    (stateH0.to_dict).eventsVal heap0 = [] := by
  exact ⟨rfl, rfl⟩

/-- C4 (amended): `to_dict` returns a snapshot containing all
characters, the event log, the world facts, the location list and the
genre, and its `characters`/`locations`/`genre` entries are fresh
copies — but the `events` list and `world_facts` dict are passed by
reference, so mutating either through the live state is visible through
the snapshot. -/
theorem to_dict_snapshot_struct (h : Heap) (s : StoryStateH) (e k v : String) :
    (s.to_dict).characters = s.characters ∧
    (s.to_dict).locations = s.locations ∧
    (s.to_dict).genre = s.genre ∧
    (s.to_dict).eventsAddr = s.eventsAddr ∧
    (s.to_dict).worldFactsAddr = s.worldFactsAddr ∧
    (s.to_dict).eventsVal (s.appendEvent h e) = (s.to_dict).eventsVal h ++ [e] ∧
    (s.to_dict).factsVal (s.setFact h k v) = upsertFact ((s.to_dict).factsVal h) k v := by
  refine ⟨rfl, rfl, rfl, rfl, rfl, ?_, ?_⟩ <;>
    simp [StoryStateH.to_dict, StateDictH.eventsVal, StateDictH.factsVal,
      StoryStateH.appendEvent, StoryStateH.setFact, Heap.setList, Heap.setDict]

/-! #### Field-level behaviour of `setattr` and the kwargs folds -/

theorem setattr_status (c : Character) (k : String) (v : FieldVal) :
    (c.setattr k v).status =
      (match v with
       | FieldVal.str s => if k = "status" then s else c.status
       | _ => c.status) := by
  unfold Character.setattr
  by_cases h1 : k = "name"
  · subst h1; cases v <;> simp
  · by_cases h2 : k = "status"
    · subst h2; cases v <;> simp
    · by_cases h3 : k = "location"
      · subst h3; cases v <;> simp [h2]
      · by_cases h4 : k = "traits"
        · subst h4; cases v <;> simp [h2]
        · by_cases h5 : k = "last_mentioned"
          · subst h5; cases v <;> simp [h2]
          · cases v <;> simp [h1, h2, h3, h4, h5]

theorem setattr_location (c : Character) (k : String) (v : FieldVal) :
    (c.setattr k v).location =
      (match v with
       | FieldVal.str s => if k = "location" then s else c.location
       | _ => c.location) := by
  unfold Character.setattr
  by_cases h1 : k = "name"
  · subst h1; cases v <;> simp
  · by_cases h2 : k = "status"
    · subst h2; cases v <;> simp
    · by_cases h3 : k = "location"
      · subst h3; cases v <;> simp [h1, h2]
      · by_cases h4 : k = "traits"
        · subst h4; cases v <;> simp [h3]
        · by_cases h5 : k = "last_mentioned"
          · subst h5; cases v <;> simp [h3]
          · cases v <;> simp [h1, h2, h3, h4, h5]

theorem setattr_traits (c : Character) (k : String) (v : FieldVal) :
    (c.setattr k v).traits =
      (match v with
       | FieldVal.strList l => if k = "traits" then l else c.traits
       | _ => c.traits) := by
  unfold Character.setattr
  by_cases h1 : k = "name"
  · subst h1; cases v <;> simp
  · by_cases h2 : k = "status"
    · subst h2; cases v <;> simp
    · by_cases h3 : k = "location"
      · subst h3; cases v <;> simp [h1, h2]
      · by_cases h4 : k = "traits"
        · subst h4; cases v <;> simp
        · by_cases h5 : k = "last_mentioned"
          · subst h5; cases v <;> simp [h4]
          · cases v <;> simp [h1, h2, h3, h4, h5]

theorem setattr_last_mentioned (c : Character) (k : String) (v : FieldVal) :
    (c.setattr k v).last_mentioned =
      (match v with
       | FieldVal.nat n => if k = "last_mentioned" then n else c.last_mentioned
       | _ => c.last_mentioned) := by
  unfold Character.setattr
  by_cases h1 : k = "name"
  · subst h1; cases v <;> simp
  · by_cases h2 : k = "status"
    · subst h2; cases v <;> simp
    · by_cases h3 : k = "location"
      · subst h3; cases v <;> simp [h1, h2]
      · by_cases h4 : k = "traits"
        · subst h4; cases v <;> simp
        · by_cases h5 : k = "last_mentioned"
          · subst h5; cases v <;> simp
          · cases v <;> simp [h1, h2, h3, h4, h5]

theorem setattr_name (c : Character) (k : String) (v : FieldVal) :
    (c.setattr k v).name =
      (match v with
       | FieldVal.str s => if k = "name" then s else c.name
       | _ => c.name) := by
  unfold Character.setattr
  by_cases h1 : k = "name"
  · subst h1; cases v <;> simp
  · by_cases h2 : k = "status"
    · subst h2; cases v <;> simp [h1]
    · by_cases h3 : k = "location"
      · subst h3; cases v <;> simp [h1]
      · by_cases h4 : k = "traits"
        · subst h4; cases v <;> simp [h1]
        · by_cases h5 : k = "last_mentioned"
          · subst h5; cases v <;> simp [h1]
          · cases v <;> simp [h1, h2, h3, h4, h5]

/-- On a key that is not a field name, `setattr` leaves the object
unchanged, so the `hasattr` guard of the update loop is redundant. -/
theorem hasattr_guard_redundant (c : Character) (k : String) (v : FieldVal) :
    (if Character.hasattrField k then c.setattr k v else c) = c.setattr k v := by
  by_cases h1 : k = "name"
  · simp [Character.hasattrField, knownFieldNames, h1]
  · by_cases h2 : k = "status"
    · simp [Character.hasattrField, knownFieldNames, h2]
    · by_cases h3 : k = "location"
      · simp [Character.hasattrField, knownFieldNames, h3]
      · by_cases h4 : k = "traits"
        · simp [Character.hasattrField, knownFieldNames, h4]
        · by_cases h5 : k = "last_mentioned"
          · simp [Character.hasattrField, knownFieldNames, h5]
          · have hg : Character.hasattrField k = false := by
              simp [Character.hasattrField, knownFieldNames, h1, h2, h3, h4, h5]
            have hs : c.setattr k v = c := by
              unfold Character.setattr
              simp [h1, h2, h3, h4, h5]
            simp [hg, hs]

theorem applyKwargs_eq_init (c : Character) (kwargs : List (String × FieldVal)) :
    applyKwargs c kwargs = initKwargs c kwargs := by
  induction kwargs generalizing c with
  | nil => rfl
  | cons p rest ih =>
    show applyKwargs (if Character.hasattrField p.1 then c.setattr p.1 p.2 else c) rest
        = initKwargs (c.setattr p.1 p.2) rest
    rw [hasattr_guard_redundant]
    exact ih (c.setattr p.1 p.2)

theorem initKwargs_status (kwargs : List (String × FieldVal)) :
    ∀ c : Character, (initKwargs c kwargs).status = ovStr kwargs "status" c.status := by
  induction kwargs with
  | nil => intro c; rfl
  | cons p rest ih =>
    intro c
    show (initKwargs (c.setattr p.1 p.2) rest).status = _
    rw [ih]
    exact congrArg (fun x => ovStr rest "status" x) (setattr_status c p.1 p.2)

theorem initKwargs_location (kwargs : List (String × FieldVal)) :
    ∀ c : Character, (initKwargs c kwargs).location = ovStr kwargs "location" c.location := by
  induction kwargs with
  | nil => intro c; rfl
  | cons p rest ih =>
    intro c
    show (initKwargs (c.setattr p.1 p.2) rest).location = _
    rw [ih]
    exact congrArg (fun x => ovStr rest "location" x) (setattr_location c p.1 p.2)

theorem initKwargs_traits (kwargs : List (String × FieldVal)) :
    ∀ c : Character, (initKwargs c kwargs).traits = ovList kwargs "traits" c.traits := by
  induction kwargs with
  | nil => intro c; rfl
  | cons p rest ih =>
    intro c
    show (initKwargs (c.setattr p.1 p.2) rest).traits = _
    rw [ih]
    exact congrArg (fun x => ovList rest "traits" x) (setattr_traits c p.1 p.2)

theorem initKwargs_last_mentioned (kwargs : List (String × FieldVal)) :
    ∀ c : Character,
      (initKwargs c kwargs).last_mentioned = ovNat kwargs "last_mentioned" c.last_mentioned := by
  induction kwargs with
  | nil => intro c; rfl
  | cons p rest ih =>
    intro c
    show (initKwargs (c.setattr p.1 p.2) rest).last_mentioned = _
    rw [ih]
    exact congrArg (fun x => ovNat rest "last_mentioned" x) (setattr_last_mentioned c p.1 p.2)

theorem initKwargs_name (kwargs : List (String × FieldVal)) :
    ∀ c : Character, (initKwargs c kwargs).name = ovStr kwargs "name" c.name := by
  induction kwargs with
  | nil => intro c; rfl
  | cons p rest ih =>
    intro c
    show (initKwargs (c.setattr p.1 p.2) rest).name = _
    rw [ih]
    exact congrArg (fun x => ovStr rest "name" x) (setattr_name c p.1 p.2)

/-! #### Association-list lemmas for the character dict -/

theorem find_map_upd_self (l : List (String × Character)) (name : String)
    (f : Character → Character) :
    (l.map (fun kv => if kv.1 == name then (kv.1, f kv.2) else kv)).find?
        (fun kv => kv.1 == name)
      = (l.find? (fun kv => kv.1 == name)).map (fun kv => (kv.1, f kv.2)) := by
  induction l with
  | nil => rfl
  | cons kv rest ih =>
    by_cases h : kv.1 = name
    · have hb : (kv.1 == name) = true := by simp [h]
      simp [List.find?_cons, h, hb, -List.find?_map]
    · have hb : (kv.1 == name) = false := by simp [h]
      simp [List.find?_cons, h, hb, -List.find?_map]
      simpa [-List.find?_map] using ih

theorem find_map_upd_other (l : List (String × Character)) (name m : String)
    (f : Character → Character) (hm : m ≠ name) :
    (l.map (fun kv => if kv.1 == name then (kv.1, f kv.2) else kv)).find?
        (fun kv => kv.1 == m)
      = l.find? (fun kv => kv.1 == m) := by
  induction l with
  | nil => rfl
  | cons kv rest ih =>
    by_cases h : kv.1 = name
    · have hne : ¬ kv.1 = m := by rw [h]; exact fun hc => hm hc.symm
      have hb3 : (name == m) = false := by
        simp; exact fun hc => hm hc.symm
      simp [List.find?_cons, h, hb3, -List.find?_map]
      simpa [-List.find?_map] using ih
    · by_cases h2 : kv.1 = m
      · have hmne : ¬ m = name := hm
        simp [List.find?_cons, h2, hmne, -List.find?_map]
      · have hb2 : (kv.1 == m) = false := by simp [h2]
        simp [List.find?_cons, h, h2, hb2, -List.find?_map]
        simpa [-List.find?_map] using ih

theorem map_fst_upd (l : List (String × Character)) (name : String)
    (f : Character → Character) :
    (l.map (fun kv => if kv.1 == name then (kv.1, f kv.2) else kv)).map Prod.fst
      = l.map Prod.fst := by
  induction l with
  | nil => rfl
  | cons kv rest ih =>
    have h1 : (if kv.1 == name then (kv.1, f kv.2) else kv).1 = kv.1 := by
      by_cases h : kv.1 = name <;> simp [h]
    simp only [List.map_cons, h1, ih]

theorem find_append_none (l l2 : List (String × Character))
    (p : String × Character → Bool) (h : l.find? p = none) :
    (l ++ l2).find? p = l2.find? p := by
  induction l with
  | nil => rfl
  | cons kv rest ih =>
    cases hb : p kv with
    | true =>
      rw [List.find?_cons_of_pos _ hb] at h
      exact absurd h (by simp)
    | false =>
      rw [List.find?_cons_of_neg _ (by simp [hb])] at h
      rw [List.cons_append, List.find?_cons_of_neg _ (by simp [hb])]
      exact ih h

theorem find_append_some (l l2 : List (String × Character))
    (p : String × Character → Bool) (kv : String × Character)
    (h : l.find? p = some kv) :
    (l ++ l2).find? p = some kv := by
  induction l with
  | nil => exact absurd h (by simp)
  | cons kv0 rest ih =>
    cases hb : p kv0 with
    | true =>
      rw [List.find?_cons_of_pos _ hb] at h
      rw [List.cons_append, List.find?_cons_of_pos _ hb]
      exact h
    | false =>
      rw [List.find?_cons_of_neg _ (by simp [hb])] at h
      rw [List.cons_append, List.find?_cons_of_neg _ (by simp [hb])]
      exact ih h

/-! #### Characterisation of `add_character` -/

/-- Existing character: the update branch. -/
theorem add_character_existing (s : StoryState) (name : String)
    (kwargs : List (String × FieldVal)) (c : Character)
    (hc : lookupChar s name = some c) :
    s.add_character name kwargs
      = Except.ok { s with characters :=
          (s.characters.map (fun kv =>
            if kv.1 == name then (kv.1, applyKwargs kv.2 kwargs) else kv)) } := by
  unfold StoryState.add_character
  rw [hc]

/-- Absent character, valid keyword names: the create branch. -/
theorem add_character_create (s : StoryState) (name : String)
    (kwargs : List (String × FieldVal))
    (hc : lookupChar s name = none)
    (hk : kwargs.all (fun kv => createKeys.contains kv.1) = true) :
    s.add_character name kwargs
      = Except.ok { s with characters :=
          s.characters ++ [(name, initKwargs (Character.mkDefault name) kwargs)] } := by
  unfold StoryState.add_character
  rw [hc]
  unfold mkCharacter
  rw [if_pos hk]
  rfl

/-- Absent character, an invalid keyword name: `TypeError`. -/
theorem add_character_create_err (s : StoryState) (name : String)
    (kwargs : List (String × FieldVal))
    (hc : lookupChar s name = none)
    (hk : kwargs.all (fun kv => createKeys.contains kv.1) = false) :
    s.add_character name kwargs
      = Except.error "TypeError: unexpected keyword argument" := by
  unfold StoryState.add_character
  rw [hc]
  unfold mkCharacter
  rw [if_neg (by rw [hk]; simp)]
  rfl

/-- After the update branch, looking up the updated name yields the
field-by-field merged character. -/
theorem lookup_after_update_self (s : StoryState) (name : String)
    (kwargs : List (String × FieldVal)) (c : Character)
    (hc : lookupChar s name = some c) :
    lookupChar { s with characters :=
        (s.characters.map (fun kv =>
          if kv.1 == name then (kv.1, applyKwargs kv.2 kwargs) else kv)) } name
      = some (applyKwargs c kwargs) := by
  have h2 : (s.characters.map (fun kv =>
        if kv.1 == name then (kv.1, applyKwargs kv.2 kwargs) else kv)).find?
          (fun kv => kv.1 == name)
      = (s.characters.find? (fun kv => kv.1 == name)).map
          (fun kv => (kv.1, applyKwargs kv.2 kwargs)) :=
    find_map_upd_self s.characters name (fun c => applyKwargs c kwargs)
  unfold lookupChar at hc ⊢
  show Option.map Prod.snd ((s.characters.map (fun kv =>
      if kv.1 == name then (kv.1, applyKwargs kv.2 kwargs) else kv)).find?
        (fun kv => kv.1 == name)) = some (applyKwargs c kwargs)
  rw [h2]
  cases hfind : s.characters.find? (fun kv => kv.1 == name) with
  | none => rw [hfind] at hc; simp at hc
  | some kv =>
    rw [hfind] at hc
    simp at hc ⊢
    rw [hc]

theorem lookup_after_update_other (s : StoryState) (name m : String)
    (kwargs : List (String × FieldVal)) (hm : m ≠ name) :
    lookupChar { s with characters :=
        (s.characters.map (fun kv =>
          if kv.1 == name then (kv.1, applyKwargs kv.2 kwargs) else kv)) } m
      = lookupChar s m := by
  have h2 : (s.characters.map (fun kv =>
        if kv.1 == name then (kv.1, applyKwargs kv.2 kwargs) else kv)).find?
          (fun kv => kv.1 == m)
      = s.characters.find? (fun kv => kv.1 == m) :=
    find_map_upd_other s.characters name m (fun c => applyKwargs c kwargs) hm
  unfold lookupChar
  show Option.map Prod.snd ((s.characters.map (fun kv =>
      if kv.1 == name then (kv.1, applyKwargs kv.2 kwargs) else kv)).find?
        (fun kv => kv.1 == m))
    = Option.map Prod.snd (s.characters.find? (fun kv => kv.1 == m))
  rw [h2]

theorem lookup_after_append_self (s : StoryState) (name : String) (c : Character)
    (hc : lookupChar s name = none) :
    lookupChar { s with characters := s.characters ++ [(name, c)] } name = some c := by
  unfold lookupChar at hc ⊢
  have hfind : s.characters.find? (fun kv => kv.1 == name) = none := by
    cases hf : s.characters.find? (fun kv => kv.1 == name) with
    | none => rfl
    | some kv => rw [hf] at hc; simp at hc
  rw [find_append_none _ _ _ hfind]
  simp [List.find?]

theorem lookup_after_append_other (s : StoryState) (name m : String) (c : Character)
    (hm : m ≠ name) :
    lookupChar { s with characters := s.characters ++ [(name, c)] } m
      = lookupChar s m := by
  unfold lookupChar
  cases hf : s.characters.find? (fun kv => kv.1 == m) with
  | none =>
    rw [find_append_none _ _ _ hf]
    have : (name == m) = false := by simp; exact fun hc => hm hc.symm
    simp [List.find?, this]
  | some kv => rw [find_append_some _ _ _ _ hf]

/-- The key set is unchanged by the update branch. -/
theorem charNames_upd (s : StoryState) (name : String)
    (kwargs : List (String × FieldVal)) :
    charNames { s with characters := (s.characters.map (fun kv =>
        if kv.1 == name then (kv.1, applyKwargs kv.2 kwargs) else kv)) }
      = charNames s := by
  have h2 : (s.characters.map (fun kv =>
      if kv.1 == name then (kv.1, applyKwargs kv.2 kwargs) else kv)).map Prod.fst
      = s.characters.map Prod.fst :=
    map_fst_upd s.characters name (fun c => applyKwargs c kwargs)
  exact h2

/-- A key never supplied keeps its default in the overwrite helpers. -/
theorem ovStr_of_not_supplied (kwargs : List (String × FieldVal)) (key : String)
    (h : ∀ p ∈ kwargs, p.1 ≠ key) : ∀ d, ovStr kwargs key d = d := by
  induction kwargs with
  | nil => intro d; rfl
  | cons p rest ih =>
    intro d
    have hp : p.1 ≠ key := h p (by simp)
    have hrest : ∀ q ∈ rest, q.1 ≠ key := fun q hq => h q (by simp [hq])
    show ovStr rest key
        (match p.2 with
         | FieldVal.str v => if p.1 = key then v else d
         | _ => d) = d
    have hstep : (match p.2 with
        | FieldVal.str v => if p.1 = key then v else d
        | _ => d) = d := by
      cases p.2 <;> simp [hp]
    rw [hstep]
    exact ih hrest d

/-- The merged character produced by the create branch, field by
field. -/
theorem initKwargs_default_fields (name : String)
    (kwargs : List (String × FieldVal))
    (hk : kwargs.all (fun kv => createKeys.contains kv.1) = true) :
    initKwargs (Character.mkDefault name) kwargs
      = { name := name,
          status := ovStr kwargs "status" "alive",
          location := ovStr kwargs "location" "unknown",
          traits := ovList kwargs "traits" [],
          last_mentioned := ovNat kwargs "last_mentioned" 0 } := by
  have hname : ∀ p ∈ kwargs, p.1 ≠ "name" := by
    intro p hp hcon
    have := List.all_eq_true.mp hk p hp
    rw [hcon] at this
    simp [createKeys] at this
  apply Character.ext
  · rw [initKwargs_name kwargs (Character.mkDefault name)]
    exact ovStr_of_not_supplied kwargs "name" hname (Character.mkDefault name).name
  · exact initKwargs_status kwargs (Character.mkDefault name)
  · exact initKwargs_location kwargs (Character.mkDefault name)
  · exact initKwargs_traits kwargs (Character.mkDefault name)
  · exact initKwargs_last_mentioned kwargs (Character.mkDefault name)

/-- C6 (counterexample): on an absent name with a supplied field name
the `Character` does not have, `add_character` does not create the
character with defaults — `Character(name=name, **kwargs)` raises
`TypeError`, so the claim's universally quantified create clause fails
at this input. -/
theorem add_character_unknown_field_create_counterexample :
    StoryState.empty.add_character "Bob" [("bogus", FieldVal.str "x")]
      = Except.error "TypeError: unexpected keyword argument" ∧
    (StoryState.empty.add_character "Bob" [("bogus", FieldVal.str "x")]).toOption
      = none := by
  exact ⟨rfl, rfl⟩

/-- C6 (amended): for well-typed supplied fields, `add_character` on an
existing character overwrites exactly the supplied fields (last
occurrence wins), preserves all fields not supplied, ignores supplied
field names the `Character` does not have, and touches no other
character and no location; on an absent name it creates a new
`Character` with defaults `status="alive"`, `location="unknown"`,
`traits=[]`, `last_mentioned=0` overridden by the supplied fields —
*provided* every supplied field name is a `Character` field other than
`name`; otherwise the call raises a `TypeError` instead of creating. -/
theorem add_character_merge_semantics (s : StoryState) (name : String)
    (kwargs : List (String × FieldVal))
    (_hwt : kwargs.all wellTypedField = true) :
    (∀ c, lookupChar s name = some c →
      ∃ s2, s.add_character name kwargs = Except.ok s2 ∧
        charNames s2 = charNames s ∧
        s2.locations = s.locations ∧
        (∀ m, m ≠ name → lookupChar s2 m = lookupChar s m) ∧
        ∃ r, lookupChar s2 name = some r ∧
          r.status = ovStr kwargs "status" c.status ∧
          r.location = ovStr kwargs "location" c.location ∧
          r.traits = ovList kwargs "traits" c.traits ∧
          r.last_mentioned = ovNat kwargs "last_mentioned" c.last_mentioned ∧
          r.name = ovStr kwargs "name" c.name) ∧
    (lookupChar s name = none →
      (kwargs.all (fun kv => createKeys.contains kv.1) = true →
        ∃ s2, s.add_character name kwargs = Except.ok s2 ∧
          lookupChar s2 name = some
            { name := name,
              status := ovStr kwargs "status" "alive",
              location := ovStr kwargs "location" "unknown",
              traits := ovList kwargs "traits" [],
              last_mentioned := ovNat kwargs "last_mentioned" 0 } ∧
          (∀ m, m ≠ name → lookupChar s2 m = lookupChar s m) ∧
          s2.locations = s.locations) ∧
      (kwargs.all (fun kv => createKeys.contains kv.1) = false →
        s.add_character name kwargs
          = Except.error "TypeError: unexpected keyword argument")) := by
  constructor
  · intro c hc
    refine ⟨_, add_character_existing s name kwargs c hc, charNames_upd s name kwargs,
      rfl, fun m hm => lookup_after_update_other s name m kwargs hm,
      applyKwargs c kwargs, lookup_after_update_self s name kwargs c hc,
      ?_, ?_, ?_, ?_, ?_⟩
    · rw [applyKwargs_eq_init]; exact initKwargs_status kwargs c
    · rw [applyKwargs_eq_init]; exact initKwargs_location kwargs c
    · rw [applyKwargs_eq_init]; exact initKwargs_traits kwargs c
    · rw [applyKwargs_eq_init]; exact initKwargs_last_mentioned kwargs c
    · rw [applyKwargs_eq_init]; exact initKwargs_name kwargs c
  · intro hc
    constructor
    · intro hk
      refine ⟨_, add_character_create s name kwargs hc hk, ?_,
        fun m hm => lookup_after_append_other s name m _ hm, rfl⟩
      rw [← initKwargs_default_fields name kwargs hk]
      exact lookup_after_append_self s name _ hc
    · intro hk
      exact add_character_create_err s name kwargs hc hk

/-- Witness for C6 at a concrete state: the supplied `status` field
overwrites, the unknown field name "bogus" is ignored, everything else
keeps its old value. -/
theorem add_character_merge_semantics_witness :
    ∃ s2, demoState.add_character "A"
        [("status", FieldVal.str "missing"), ("bogus", FieldVal.str "z")]
        = Except.ok s2 ∧
      lookupChar s2 "A"
        = some { name := "A", status := "missing", location := "unknown",
                 traits := [], last_mentioned := 0 } := by
  obtain ⟨s2, heq, _, _, _, r, hr, hst, hloc, htr, hlm, hnm⟩ :=
    (add_character_merge_semantics demoState "A"
      [("status", FieldVal.str "missing"), ("bogus", FieldVal.str "z")] (by decide)).1
      (Character.mkDefault "A") (by decide)
  have hrlit : r = ({ name := "A", status := "missing", location := "unknown", traits := [], last_mentioned := 0 } : Character) := by
    apply Character.ext
    · exact hnm.trans rfl
    · exact hst.trans rfl
    · exact hloc.trans rfl
    · exact htr.trans rfl
    · exact hlm.trans rfl
  exact ⟨s2, heq, by rw [hr, hrlit]⟩

/-! #### Monotonicity of the state operations -/

theorem charNames_append (s : StoryState) (name : String) (c : Character) :
    charNames { s with characters := s.characters ++ [(name, c)] }
      = charNames s ++ [name] := by
  unfold charNames
  simp

theorem add_character_locations (s : StoryState) (name : String)
    (kwargs : List (String × FieldVal)) (s2 : StoryState)
    (h : s.add_character name kwargs = Except.ok s2) :
    s2.locations = s.locations := by
  unfold StoryState.add_character at h
  cases hl : lookupChar s name with
  | some c =>
    rw [hl] at h
    cases h
    rfl
  | none =>
    rw [hl] at h
    cases hmk : mkCharacter name kwargs with
    | ok c => rw [hmk] at h; cases h; rfl
    | error e => rw [hmk] at h; cases h

theorem add_character_names_mono (s : StoryState) (name : String)
    (kwargs : List (String × FieldVal)) (s2 : StoryState)
    (h : s.add_character name kwargs = Except.ok s2) :
    ∀ n, n ∈ charNames s → n ∈ charNames s2 := by
  intro n hn
  unfold StoryState.add_character at h
  cases hl : lookupChar s name with
  | some c =>
    rw [hl] at h
    cases h
    rw [charNames_upd]
    exact hn
  | none =>
    rw [hl] at h
    cases hmk : mkCharacter name kwargs with
    | ok c =>
      rw [hmk] at h
      cases h
      rw [charNames_append]
      exact List.mem_append_left _ hn
    | error e => rw [hmk] at h; cases h

theorem addCharTotal_names_mono (s : StoryState) (name : String)
    (kwargs : List (String × FieldVal)) :
    ∀ n, n ∈ charNames s → n ∈ charNames (addCharTotal s name kwargs) := by
  intro n hn
  unfold addCharTotal
  cases hadd : s.add_character name kwargs with
  | ok s2 => exact add_character_names_mono s name kwargs s2 hadd n hn
  | error e => exact hn

theorem addCharTotal_locations (s : StoryState) (name : String)
    (kwargs : List (String × FieldVal)) :
    (addCharTotal s name kwargs).locations = s.locations := by
  unfold addCharTotal
  cases hadd : s.add_character name kwargs with
  | ok s2 => exact add_character_locations s name kwargs s2 hadd
  | error e => rfl

theorem charNames_setDead (s : StoryState) (name : String) :
    charNames (setStatusDead s name) = charNames s := by
  have h2 : (s.characters.map (fun kv =>
      if kv.1 == name then (kv.1, { kv.2 with status := "dead" }) else kv)).map Prod.fst
      = s.characters.map Prod.fst :=
    map_fst_upd s.characters name (fun c => { c with status := "dead" })
  exact h2

theorem applyDeaths_names_mono (names : List String) :
    ∀ (s : StoryState) (n : String), n ∈ charNames s → n ∈ charNames (applyDeaths s names) := by
  induction names with
  | nil => intro s n hn; exact hn
  | cons m rest ih =>
    intro s n hn
    show n ∈ charNames (applyDeaths (if (lookupChar s m).isSome then setStatusDead s m else s) rest)
    by_cases h : (lookupChar s m).isSome
    · rw [if_pos h]
      exact ih _ n (by rw [charNames_setDead]; exact hn)
    · rw [if_neg h]
      exact ih _ n hn

theorem applyDeaths_locations (names : List String) :
    ∀ s : StoryState, (applyDeaths s names).locations = s.locations := by
  induction names with
  | nil => intro s; rfl
  | cons m rest ih =>
    intro s
    show (applyDeaths (if (lookupChar s m).isSome then setStatusDead s m else s) rest).locations = _
    by_cases h : (lookupChar s m).isSome
    · rw [if_pos h, ih]; rfl
    · rw [if_neg h, ih]

theorem insertLoc_mono (locs : List String) (x y : String) (h : y ∈ locs) :
    y ∈ insertLoc locs x := by
  unfold insertLoc
  by_cases hx : locs.contains x
  · rw [if_pos hx]; exact h
  · rw [if_neg hx]; exact List.mem_append_left _ h

theorem registerEnts_names_mono (ents : List (String × String)) (idx : Nat) :
    ∀ (s : StoryState) (n : String), n ∈ charNames s →
      n ∈ charNames (registerEnts s idx ents) := by
  induction ents with
  | nil => intro s n hn; exact hn
  | cons e rest ih =>
    intro s n hn
    show n ∈ charNames (registerEnts (if e.2 == "PERSON" then _ else _) idx rest)
    by_cases h1 : e.2 = "PERSON"
    · have hb : (e.2 == "PERSON") = true := by simp [h1]
      simp only [registerEnts, List.foldl_cons, hb, if_true]
      exact ih _ n (addCharTotal_names_mono s _ _ n hn)
    · have hb : (e.2 == "PERSON") = false := by simp [h1]
      by_cases h2 : e.2 = "GPE" ∨ e.2 = "LOC"
      · have hb2 : (e.2 == "GPE" || e.2 == "LOC") = true := by
          rcases h2 with h2 | h2 <;> simp [h2]
        simp only [registerEnts, List.foldl_cons, hb, hb2, Bool.false_eq_true, if_false, if_true]
        exact ih _ n hn
      · have hb2 : (e.2 == "GPE" || e.2 == "LOC") = false := by
          push_neg at h2
          simp [h2.1, h2.2]
        simp only [registerEnts, List.foldl_cons, hb, hb2, Bool.false_eq_true, if_false]
        exact ih _ n hn

theorem registerEnts_locs_mono (ents : List (String × String)) (idx : Nat) :
    ∀ (s : StoryState) (y : String), y ∈ s.locations →
      y ∈ (registerEnts s idx ents).locations := by
  induction ents with
  | nil => intro s y hy; exact hy
  | cons e rest ih =>
    intro s y hy
    by_cases h1 : e.2 = "PERSON"
    · have hb : (e.2 == "PERSON") = true := by simp [h1]
      simp only [registerEnts, List.foldl_cons, hb, if_true]
      refine ih _ y ?_
      rw [addCharTotal_locations]
      exact hy
    · have hb : (e.2 == "PERSON") = false := by simp [h1]
      by_cases h2 : e.2 = "GPE" ∨ e.2 = "LOC"
      · have hb2 : (e.2 == "GPE" || e.2 == "LOC") = true := by
          rcases h2 with h2 | h2 <;> simp [h2]
        simp only [registerEnts, List.foldl_cons, hb, hb2, Bool.false_eq_true, if_false, if_true]
        exact ih _ y (insertLoc_mono s.locations _ y hy)
      · have hb2 : (e.2 == "GPE" || e.2 == "LOC") = false := by
          push_neg at h2
          simp [h2.1, h2.2]
        simp only [registerEnts, List.foldl_cons, hb, hb2, Bool.false_eq_true, if_false]
        exact ih _ y hy

theorem parseSentences_names_mono (nlp : Nlp) (sentences : List String) :
    ∀ (idx : Nat) (s : StoryState) (n : String), n ∈ charNames s →
      n ∈ charNames (parseSentences nlp sentences idx s) := by
  induction sentences with
  | nil => intro idx s n hn; exact hn
  | cons sent rest ih =>
    intro idx s n hn
    show n ∈ charNames (parseSentences nlp rest (idx + 1) (processSentence nlp s idx sent))
    refine ih _ _ n ?_
    unfold processSentence
    exact applyDeaths_names_mono _ _ n (registerEnts_names_mono _ idx s n hn)

theorem parseSentences_locs_mono (nlp : Nlp) (sentences : List String) :
    ∀ (idx : Nat) (s : StoryState) (y : String), y ∈ s.locations →
      y ∈ (parseSentences nlp sentences idx s).locations := by
  induction sentences with
  | nil => intro idx s y hy; exact hy
  | cons sent rest ih =>
    intro idx s y hy
    show y ∈ (parseSentences nlp rest (idx + 1) (processSentence nlp s idx sent)).locations
    refine ih _ _ y ?_
    unfold processSentence
    rw [applyDeaths_locations]
    exact registerEnts_locs_mono _ idx s y hy

theorem simpleParse_names_mono (text : String) (s : StoryState) (n : String)
    (hn : n ∈ charNames s) : n ∈ charNames (simpleParse text s) := by
  unfold simpleParse
  generalize dedupFirst (findallNames text) = names
  induction names generalizing s with
  | nil => exact hn
  | cons m rest ih =>
    rw [List.foldl_cons]
    by_cases h : 1 < m.length ∧ stopWords.contains m = false
    · rw [if_pos h]
      exact ih _ (addCharTotal_names_mono s m [] n hn)
    · rw [if_neg h]
      exact ih _ hn

theorem simpleParse_locations (text : String) (s : StoryState) :
    (simpleParse text s).locations = s.locations := by
  unfold simpleParse
  generalize dedupFirst (findallNames text) = names
  induction names generalizing s with
  | nil => rfl
  | cons m rest ih =>
    rw [List.foldl_cons]
    by_cases h : 1 < m.length ∧ stopWords.contains m = false
    · rw [if_pos h, ih, addCharTotal_locations]
    · rw [if_neg h, ih]

/-- C9: extraction under either strategy, and every successful
`add_character` call, only grow the character collection and the
location set: every character name and location present before the
operation is still present after it. -/
theorem world_state_monotonic :
    (∀ (nlpO : Option Nlp) (text : String) (s : StoryState) (n : String),
      n ∈ charNames s → n ∈ charNames (parse_story nlpO text s)) ∧
    (∀ (nlpO : Option Nlp) (text : String) (s : StoryState) (y : String),
      y ∈ s.locations → y ∈ (parse_story nlpO text s).locations) ∧
    (∀ (s : StoryState) (name : String) (kwargs : List (String × FieldVal))
        (s2 : StoryState), s.add_character name kwargs = Except.ok s2 →
      (∀ n, n ∈ charNames s → n ∈ charNames s2) ∧ s2.locations = s.locations) := by
  refine ⟨?_, ?_, ?_⟩
  · intro nlpO text s n hn
    cases nlpO with
    | some nlp => exact parseSentences_names_mono nlp _ 0 s n hn
    | none => exact simpleParse_names_mono text s n hn
  · intro nlpO text s y hy
    cases nlpO with
    | some nlp => exact parseSentences_locs_mono nlp _ 0 s y hy
    | none => rw [parse_story, simpleParse_locations]; exact hy
  · intro s name kwargs s2 h
    exact ⟨fun n hn => add_character_names_mono s name kwargs s2 h n hn,
      add_character_locations s name kwargs s2 h⟩

/-- Witness for C9: a pre-existing character and location survive a
parse and a character addition. -/
theorem world_state_monotonic_witness :
    ("A" ∈ charNames (parse_story none "Bob met Carol." demoState)) ∧
    ("L" ∈ (parse_story none "Bob met Carol." demoState).locations) ∧
    ("A" ∈ charNames (addCharTotal demoState "B" []) ∧
      (addCharTotal demoState "B" []).locations = demoState.locations) := by
  have h3 := world_state_monotonic.2.2 demoState "B" []
    (addCharTotal demoState "B" []) rfl
  exact ⟨world_state_monotonic.1 none "Bob met Carol." demoState "A" (by decide),
    world_state_monotonic.2.1 none "Bob met Carol." demoState "L" (by decide),
    h3.1 "A" (by decide), h3.2⟩

/-! #### Death-status tracking through the advanced parse -/

theorem lookup_setDead_self (s : StoryState) (name : String) (c : Character)
    (hc : lookupChar s name = some c) :
    lookupChar (setStatusDead s name) name = some { c with status := "dead" } := by
  have h2 : (s.characters.map (fun kv =>
        if kv.1 == name then (kv.1, { kv.2 with status := "dead" }) else kv)).find?
          (fun kv => kv.1 == name)
      = (s.characters.find? (fun kv => kv.1 == name)).map
          (fun kv => (kv.1, { kv.2 with status := "dead" })) :=
    find_map_upd_self s.characters name (fun c => { c with status := "dead" })
  unfold lookupChar at hc ⊢
  show Option.map Prod.snd ((s.characters.map (fun kv =>
      if kv.1 == name then (kv.1, { kv.2 with status := "dead" }) else kv)).find?
        (fun kv => kv.1 == name)) = some { c with status := "dead" }
  rw [h2]
  cases hfind : s.characters.find? (fun kv => kv.1 == name) with
  | none => rw [hfind] at hc; simp at hc
  | some kv =>
    rw [hfind] at hc
    simp at hc ⊢
    simp [hc]

theorem lookup_setDead_other (s : StoryState) (name m : String) (hm : m ≠ name) :
    lookupChar (setStatusDead s name) m = lookupChar s m := by
  have h2 : (s.characters.map (fun kv =>
        if kv.1 == name then (kv.1, { kv.2 with status := "dead" }) else kv)).find?
          (fun kv => kv.1 == m)
      = s.characters.find? (fun kv => kv.1 == m) :=
    find_map_upd_other s.characters name m (fun c => { c with status := "dead" }) hm
  unfold lookupChar
  show Option.map Prod.snd ((s.characters.map (fun kv =>
      if kv.1 == name then (kv.1, { kv.2 with status := "dead" }) else kv)).find?
        (fun kv => kv.1 == m))
    = Option.map Prod.snd (s.characters.find? (fun kv => kv.1 == m))
  rw [h2]

/-- `add_character` with no supplied `status` field preserves every
character's status. -/
theorem addCharTotal_preserves_status (s : StoryState) (name m : String)
    (kwargs : List (String × FieldVal)) (hns : ∀ p ∈ kwargs, p.1 ≠ "status")
    (v : String) (hv : statusOf s m = some v) :
    statusOf (addCharTotal s name kwargs) m = some v := by
  unfold addCharTotal
  cases hadd : s.add_character name kwargs with
  | error e => exact hv
  | ok s2 =>
    unfold StoryState.add_character at hadd
    cases hl : lookupChar s name with
    | some c =>
      rw [hl] at hadd
      cases hadd
      by_cases hm : m = name
      · subst hm
        unfold statusOf at hv ⊢
        rw [lookup_after_update_self s m kwargs c hl]
        rw [hl] at hv
        simp at hv ⊢
        rw [applyKwargs_eq_init, initKwargs_status,
          ovStr_of_not_supplied kwargs "status" hns c.status]
        exact hv
      · unfold statusOf at hv ⊢
        rw [lookup_after_update_other s name m kwargs hm]
        exact hv
    | none =>
      rw [hl] at hadd
      cases hmk : mkCharacter name kwargs with
      | error e => rw [hmk] at hadd; cases hadd
      | ok c =>
        rw [hmk] at hadd
        cases hadd
        by_cases hm : m = name
        · subst hm
          unfold statusOf at hv
          rw [hl] at hv
          simp at hv
        · unfold statusOf at hv ⊢
          rw [lookup_after_append_other s name m c hm]
          exact hv

theorem setDead_preserves_dead (s : StoryState) (name m : String)
    (hv : statusOf s m = some "dead") :
    statusOf (setStatusDead s name) m = some "dead" := by
  by_cases hm : m = name
  · subst hm
    unfold statusOf at hv ⊢
    cases hl : lookupChar s m with
    | none => rw [hl] at hv; simp at hv
    | some c =>
      rw [lookup_setDead_self s m c hl]
      simp
  · unfold statusOf at hv ⊢
    rw [lookup_setDead_other s name m hm]
    exact hv

theorem applyDeaths_preserves_dead (names : List String) :
    ∀ (s : StoryState) (m : String), statusOf s m = some "dead" →
      statusOf (applyDeaths s names) m = some "dead" := by
  induction names with
  | nil => intro s m hv; exact hv
  | cons n rest ih =>
    intro s m hv
    show statusOf (applyDeaths (if (lookupChar s n).isSome then setStatusDead s n else s) rest) m
      = some "dead"
    by_cases h : (lookupChar s n).isSome
    · rw [if_pos h]
      exact ih _ m (setDead_preserves_dead s n m hv)
    · rw [if_neg h]
      exact ih _ m hv

theorem mem_map_fst_exists_find (l : List (String × Character)) (n : String)
    (h : n ∈ l.map Prod.fst) :
    ∃ kv, l.find? (fun kv => kv.1 == n) = some kv := by
  induction l with
  | nil => simp at h
  | cons kv rest ih =>
    by_cases hk : kv.1 = n
    · exact ⟨kv, List.find?_cons_of_pos _ (by simp [hk])⟩
    · rw [List.find?_cons_of_neg _ (by simp [hk])]
      apply ih
      rw [List.map_cons] at h
      rcases List.mem_cons.mp h with h1 | h1
      · exact absurd h1.symm hk
      · exact h1

theorem mem_charNames_lookup (s : StoryState) (n : String)
    (h : n ∈ charNames s) : ∃ c, lookupChar s n = some c := by
  obtain ⟨kv, hkv⟩ := mem_map_fst_exists_find s.characters n h
  exact ⟨kv.2, by unfold lookupChar; rw [hkv]; rfl⟩

/-- If a captured name is currently a character, the death loop marks
it dead. -/
theorem applyDeaths_sets_dead (names : List String) :
    ∀ (s : StoryState) (name : String), name ∈ names →
      (∃ c, lookupChar s name = some c) →
      statusOf (applyDeaths s names) name = some "dead" := by
  induction names with
  | nil => intro s name hmem; simp at hmem
  | cons n rest ih =>
    intro s name hmem hex
    obtain ⟨c, hc⟩ := hex
    show statusOf (applyDeaths (if (lookupChar s n).isSome then setStatusDead s n else s) rest) name
      = some "dead"
    by_cases hn : name = n
    · subst hn
      rw [if_pos (by rw [hc]; rfl)]
      have hdead : statusOf (setStatusDead s name) name = some "dead" := by
        unfold statusOf
        rw [lookup_setDead_self s name c hc]
        simp
      exact applyDeaths_preserves_dead rest _ name hdead
    · have hmem2 : name ∈ rest := by
        rcases List.mem_cons.mp hmem with h1 | h1
        · exact absurd h1 hn
        · exact h1
      by_cases h : (lookupChar s n).isSome
      · rw [if_pos h]
        refine ih _ name hmem2 ⟨c, ?_⟩
        rw [lookup_setDead_other s n name hn]
        exact hc
      · rw [if_neg h]
        exact ih _ name hmem2 ⟨c, hc⟩

theorem registerEnts_preserves_status (ents : List (String × String)) (idx : Nat) :
    ∀ (s : StoryState) (m v : String), statusOf s m = some v →
      statusOf (registerEnts s idx ents) m = some v := by
  induction ents with
  | nil => intro s m v hv; exact hv
  | cons e rest ih =>
    intro s m v hv
    by_cases h1 : e.2 = "PERSON"
    · have hb : (e.2 == "PERSON") = true := by simp [h1]
      simp only [registerEnts, List.foldl_cons, hb, if_true]
      refine ih _ m v ?_
      exact addCharTotal_preserves_status s (pyStrip e.1) m
        [("last_mentioned", FieldVal.nat idx)]
        (by intro p hp; simp at hp; simp [hp]) v hv
    · have hb : (e.2 == "PERSON") = false := by simp [h1]
      by_cases h2 : e.2 = "GPE" ∨ e.2 = "LOC"
      · have hb2 : (e.2 == "GPE" || e.2 == "LOC") = true := by
          rcases h2 with h2 | h2 <;> simp [h2]
        simp only [registerEnts, List.foldl_cons, hb, hb2, Bool.false_eq_true, if_false, if_true]
        exact ih _ m v hv
      · have hb2 : (e.2 == "GPE" || e.2 == "LOC") = false := by
          push_neg at h2
          simp [h2.1, h2.2]
        simp only [registerEnts, List.foldl_cons, hb, hb2, Bool.false_eq_true, if_false]
        exact ih _ m v hv

theorem parseSentences_preserves_dead (nlp : Nlp) (sentences : List String) :
    ∀ (idx : Nat) (s : StoryState) (m : String), statusOf s m = some "dead" →
      statusOf (parseSentences nlp sentences idx s) m = some "dead" := by
  induction sentences with
  | nil => intro idx s m hv; exact hv
  | cons sent rest ih =>
    intro idx s m hv
    show statusOf (parseSentences nlp rest (idx + 1) (processSentence nlp s idx sent)) m
      = some "dead"
    refine ih _ _ m ?_
    unfold processSentence
    exact applyDeaths_preserves_dead _ _ m
      (registerEnts_preserves_status _ idx s m "dead" hv)

theorem parseSentences_append (nlp : Nlp) (l1 : List String) :
    ∀ (l2 : List String) (i : Nat) (s : StoryState),
      parseSentences nlp (l1 ++ l2) i s
        = parseSentences nlp l2 (i + l1.length) (parseSentences nlp l1 i s) := by
  induction l1 with
  | nil => intro l2 i s; simp [parseSentences]
  | cons sent rest ih =>
    intro l2 i s
    show parseSentences nlp (rest ++ l2) (i + 1) (processSentence nlp s i sent)
      = parseSentences nlp l2 (i + (rest.length + 1))
          (parseSentences nlp rest (i + 1) (processSentence nlp s i sent))
    rw [ih l2 (i + 1) (processSentence nlp s i sent)]
    have : i + 1 + rest.length = i + (rest.length + 1) := by omega
    rw [this]

/-- C7 (counterexample): under the heuristic strategy there is no
death-pattern detection at all.  On the text "Tom died." the first
death pattern captures "Tom", and "Tom" is a newly-seen character name
(registered by the same parse), yet the character's status stays
"alive", so the claim fails for the simple strategy. -/
theorem simple_parse_no_death_counterexample :
    deathCaptures "Tom died." = ["Tom"] ∧
    statusOf (parse_story none "Tom died." StoryState.empty) "Tom" = some "alive" := by
  exact ⟨by decide, by decide⟩

/-- C7 (amended): under the *advanced* strategy the property holds: for
every sentence of the segmented text and every name captured there by a
case-insensitive death pattern, if that name is a character once the
sentence's entities have been registered (which happens before the
death-pattern update, so a character introduced and killed in the same
sentence is created and then marked dead), then the parsed state marks
that character dead. -/
theorem advanced_parse_death_marking (nlp : Nlp) (text : String) (s0 : StoryState)
    (pre post : List String) (sent : String) (name : String)
    (hsplit : (nlp.sents text).map pyStrip = pre ++ sent :: post)
    (hcap : name ∈ deathCaptures sent)
    (hreg : name ∈ charNames
      (registerEnts (parseSentences nlp pre 0 s0) pre.length (nlp.ents sent))) :
    statusOf (advancedParse nlp text s0) name = some "dead" := by
  unfold advancedParse
  rw [hsplit, parseSentences_append nlp pre (sent :: post) 0 s0, Nat.zero_add]
  show statusOf (parseSentences nlp post (pre.length + 1)
      (processSentence nlp (parseSentences nlp pre 0 s0) pre.length sent)) name
    = some "dead"
  refine parseSentences_preserves_dead nlp post _ _ name ?_
  unfold processSentence
  exact applyDeaths_sets_dead _ _ name hcap (mem_charNames_lookup _ name hreg)

/-- Witness for C7 (amended): a character introduced and killed in the
same single sentence ends up created and marked dead. -/
theorem advanced_parse_death_marking_witness :
    statusOf (advancedParse demoNlp "Bob died." StoryState.empty) "Bob" = some "dead" := by
  exact advanced_parse_death_marking demoNlp "Bob died." StoryState.empty
    [] [] "Bob died." "Bob" (by decide) (by decide) (by decide)

/-! #### The refinement loop -/

/-- One unfolding of the loop body when the store succeeds. -/
theorem engineLoop_succ (gen : Nat → String → String)
    (store : Nat → Except String Unit) (nlpO : Option Nlp) (f idx : Nat)
    (story : String) (st : StoryState) (calls : Nat)
    (hs : store (idx + 1) = Except.ok ()) :
    engineLoop gen store nlpO (f + 1) idx story st calls
      = (if validate validatorRules story (parse_story nlpO story st) = [] ∨ f = 0 then
          (Except.ok
            ([⟨idx + 1, story, validate validatorRules story (parse_story nlpO story st),
               (validate validatorRules story (parse_story nlpO story st)).length,
               (parse_story nlpO story st).to_dict⟩],
             story, parse_story nlpO story st), calls)
        else
          match engineLoop gen store nlpO f (idx + 1)
              (improve_story (gen calls) story
                (validate validatorRules story (parse_story nlpO story st))).1
              (parse_story nlpO story st)
              (calls + (improve_story (gen calls) story
                (validate validatorRules story (parse_story nlpO story st))).2) with
          | (Except.error e, c) => (Except.error e, c)
          | (Except.ok (recs, fin, stF), c) =>
              (Except.ok
                (⟨idx + 1, story, validate validatorRules story (parse_story nlpO story st),
                  (validate validatorRules story (parse_story nlpO story st)).length,
                  (parse_story nlpO story st).to_dict⟩ :: recs, fin, stF), c)) := by
  rw [engineLoop, hs]

/-- One unfolding of the loop body when the store fails: the error
propagates and aborts the iteration. -/
theorem engineLoop_store_err (gen : Nat → String → String)
    (store : Nat → Except String Unit) (nlpO : Option Nlp) (f idx : Nat)
    (story : String) (st : StoryState) (calls : Nat) (e : String)
    (hs : store (idx + 1) = Except.error e) :
    engineLoop gen store nlpO (f + 1) idx story st calls
      = (Except.error e, calls) := by
  rw [engineLoop, hs]

/-- Behaviour of the loop when every store call succeeds: it returns
normally with at most `fuel` records, at least one when `fuel ≥ 1`;
the final story is the story of the last record; it stops exactly when
the last record's violations are empty or the fuel is exhausted; and
every record but the last has a non-empty violation list. -/
theorem engineLoop_spec (gen : Nat → String → String)
    (store : Nat → Except String Unit) (nlpO : Option Nlp)
    (hstore : ∀ i, store i = Except.ok ()) :
    ∀ (fuel idx : Nat) (story : String) (st : StoryState) (calls : Nat),
      ∃ recs fin stF c,
        engineLoop gen store nlpO fuel idx story st calls
          = (Except.ok (recs, fin, stF), c) ∧
        recs.length ≤ fuel ∧
        calls ≤ c ∧
        (1 ≤ fuel → recs ≠ []) ∧
        (∀ last, recs.getLast? = some last →
          fin = last.story ∧ (last.violations = [] ∨ recs.length = fuel)) ∧
        (∀ i r, recs.get? i = some r → i + 1 < recs.length → r.violations ≠ []) := by
  intro fuel
  induction fuel with
  | zero =>
    intro idx story st calls
    refine ⟨[], story, st, calls, rfl, by simp, le_refl _, by simp, ?_, ?_⟩
    · intro last h; simp at h
    · intro i r h; simp at h
  | succ f ih =>
    intro idx story st calls
    by_cases hcond :
        validate validatorRules story (parse_story nlpO story st) = [] ∨ f = 0
    · refine ⟨[⟨idx + 1, story, validate validatorRules story (parse_story nlpO story st),
          (validate validatorRules story (parse_story nlpO story st)).length,
          (parse_story nlpO story st).to_dict⟩],
        story, parse_story nlpO story st, calls, ?_, by simp, le_refl _,
        fun _ => by simp, ?_, ?_⟩
      · rw [engineLoop_succ gen store nlpO f idx story st calls (hstore (idx + 1)),
          if_pos hcond]
      · intro last h
        simp only [List.getLast?_singleton, Option.some.injEq] at h
        subst h
        rcases hcond with hv | hf
        · exact ⟨rfl, Or.inl hv⟩
        · exact ⟨rfl, Or.inr (by simp [hf])⟩
      · intro i r _ hlt
        simp at hlt
    · push_neg at hcond
      obtain ⟨hv, hf⟩ := hcond
      obtain ⟨recs2, fin2, stF2, c2, heq2, hlen2, hcalls2, hne2, hlast2, hmid2⟩ :=
        ih (idx + 1)
          (improve_story (gen calls) story
            (validate validatorRules story (parse_story nlpO story st))).1
          (parse_story nlpO story st)
          (calls + (improve_story (gen calls) story
            (validate validatorRules story (parse_story nlpO story st))).2)
      have hne2' : recs2 ≠ [] := hne2 (by omega)
      obtain ⟨b, t, rfl⟩ : ∃ b t, recs2 = b :: t := by
        cases recs2 with
        | nil => exact absurd rfl hne2'
        | cons b t => exact ⟨b, t, rfl⟩
      refine ⟨⟨idx + 1, story, validate validatorRules story (parse_story nlpO story st),
          (validate validatorRules story (parse_story nlpO story st)).length,
          (parse_story nlpO story st).to_dict⟩ :: b :: t,
        fin2, stF2, c2, ?_, ?_, ?_, fun _ => by simp, ?_, ?_⟩
      · rw [engineLoop_succ gen store nlpO f idx story st calls (hstore (idx + 1)),
          if_neg (by push_neg; exact ⟨hv, hf⟩), heq2]
      · simp only [List.length_cons] at hlen2 ⊢
        omega
      · exact le_trans (Nat.le_add_right calls _) hcalls2
      · intro last h
        rw [List.getLast?_cons_cons] at h
        obtain ⟨hfin, hstop⟩ := hlast2 last h
        refine ⟨hfin, ?_⟩
        rcases hstop with h1 | h1
        · exact Or.inl h1
        · exact Or.inr (by simp [h1])
      · intro i r hget hlt
        cases i with
        | zero =>
          simp only [List.get?_cons_zero, Option.some.injEq] at hget
          subst hget
          exact hv
        | succ j =>
          simp only [List.get?_cons_succ] at hget
          simp only [List.length_cons] at hlt
          exact hmid2 j r hget (by simp only [List.length_cons]; omega)

/-- Unfolding of `generateAndImprove` without `let` binders. -/
theorem generateAndImprove_eq (gen : Nat → String → String)
    (store : Nat → Except String Unit) (nlpO : Option Nlp) (N : Int)
    (prompt : String) :
    generateAndImprove gen store nlpO N prompt
      = (match engineLoop gen store nlpO N.toNat 0 (gen 0 prompt) StoryState.empty 1 with
         | (Except.error e, c) => (Except.error e, c)
         | (Except.ok (recs, fin, _), c) =>
             (Except.ok ⟨prompt, recs, fin, fixedOf recs⟩, c)) := rfl

/-- C1: for every iteration bound `N ≥ 1` (with the persistence side
effect succeeding), a run terminates with at most `N` iteration
records and at least one; it stops exactly when an iteration's
violation list is empty or the count reaches `N` (every non-last
record has violations), and the final output is the text of the last
iteration record. -/
theorem generate_and_improve_terminates (gen : Nat → String → String)
    (store : Nat → Except String Unit) (nlpO : Option Nlp) (N : Int)
    (prompt : String) (hN : 1 ≤ N) (hstore : ∀ i, store i = Except.ok ()) :
    ∃ res c, generateAndImprove gen store nlpO N prompt = (Except.ok res, c) ∧
      res.iterations.length ≤ N.toNat ∧
      res.iterations ≠ [] ∧
      (∀ last, res.iterations.getLast? = some last →
        res.final_story = last.story ∧
        (last.violations = [] ∨ (res.iterations.length : Int) = N)) ∧
      (∀ i r, res.iterations.get? i = some r → i + 1 < res.iterations.length →
        r.violations ≠ []) := by
  obtain ⟨recs, fin, stF, c, heq, hlen, _, hne, hlast, hmid⟩ :=
    engineLoop_spec gen store nlpO hstore N.toNat 0 (gen 0 prompt) StoryState.empty 1
  have hmain : generateAndImprove gen store nlpO N prompt
      = (Except.ok ⟨prompt, recs, fin, fixedOf recs⟩, c) := by
    simp only [generateAndImprove_eq, heq]
  refine ⟨_, c, hmain, hlen, hne (by omega), ?_, hmid⟩
  intro last h
  obtain ⟨hfin, hstop⟩ := hlast last h
  refine ⟨hfin, ?_⟩
  rcases hstop with h1 | h1
  · exact Or.inl h1
  · refine Or.inr ?_
    rw [h1, Int.toNat_of_nonneg (by omega)]

/-- Witness for C1 at bound 3 with an always-ok store. -/
theorem generate_and_improve_terminates_witness :
    ∃ res c, generateAndImprove (fun _ _ => "x") okStore none 3 "p"
        = (Except.ok res, c) ∧
      res.iterations.length ≤ (3 : Int).toNat ∧
      res.iterations ≠ [] ∧
      (∀ last, res.iterations.getLast? = some last →
        res.final_story = last.story ∧
        (last.violations = [] ∨ (res.iterations.length : Int) = 3)) ∧
      (∀ i r, res.iterations.get? i = some r → i + 1 < res.iterations.length →
        r.violations ≠ []) :=
  generate_and_improve_terminates (fun _ _ => "x") okStore none 3 "p"
    (by decide) (fun _ => rfl)

/-- C3 (counterexample): a run with iteration bound 0 *and* an empty
prompt is not rejected: it returns a normal result, and the generation
service is called once (the second component counts generation
calls). -/
theorem config_not_validated_counterexample :
    generateAndImprove (fun _ _ => "s") okStore none 0 ""
      = (Except.ok ⟨"", [], "s", 0⟩, 1) := by
  rfl

/-- C3 (amended): the engine performs no configuration validation at
all.  With the persistence side effect succeeding, every run — whatever
the prompt and bound — returns a normal result after at least one
generation call; for a bound `≤ 0` the loop body never runs, and the
result is the initial generated story with zero iteration records,
still after one generation call. -/
theorem generate_and_improve_never_rejects (gen : Nat → String → String)
    (store : Nat → Except String Unit) (nlpO : Option Nlp) (N : Int)
    (prompt : String) (hstore : ∀ i, store i = Except.ok ()) :
    (∃ res c, generateAndImprove gen store nlpO N prompt = (Except.ok res, c) ∧
      1 ≤ c) ∧
    (N ≤ 0 → generateAndImprove gen store nlpO N prompt
        = (Except.ok ⟨prompt, [], gen 0 prompt, 0⟩, 1)) := by
  constructor
  · obtain ⟨recs, fin, stF, c, heq, _, hc, _, _, _⟩ :=
      engineLoop_spec gen store nlpO hstore N.toNat 0 (gen 0 prompt) StoryState.empty 1
    have hmain : generateAndImprove gen store nlpO N prompt
        = (Except.ok ⟨prompt, recs, fin, fixedOf recs⟩, c) := by
      simp only [generateAndImprove_eq, heq]
    exact ⟨_, c, hmain, hc⟩
  · intro hN0
    have ht : N.toNat = 0 := by omega
    rw [generateAndImprove_eq, ht]
    rfl

/-- Witness for C3 (amended) at bound `-2`. -/
theorem generate_and_improve_never_rejects_witness :
    (∃ res c, generateAndImprove (fun _ _ => "x") okStore none (-2) "p"
        = (Except.ok res, c) ∧ 1 ≤ c) ∧
    ((-2 : Int) ≤ 0 → generateAndImprove (fun _ _ => "x") okStore none (-2) "p"
        = (Except.ok ⟨"p", [], "x", 0⟩, 1)) :=
  generate_and_improve_never_rejects (fun _ _ => "x") okStore none (-2) "p"
    (fun _ => rfl)

/-- C5 (counterexample): a failing persistence side effect aborts the
run: with a store that raises, the run returns the storage error
instead of a final story and iteration history. -/
theorem store_failure_aborts_counterexample :
    generateAndImprove (fun _ _ => "s") (fun _ => Except.error "disk full") none 1 "p"
      = (Except.error "disk full", 1) := by
  rfl

/-- C5 (amended): `_store_iteration` is wrapped in no handler, so a
persistence failure propagates: if storing the first iteration record
fails, the whole run aborts with that error (after the one initial
generation call), yielding neither a final story nor a history. -/
theorem store_failure_propagates (gen : Nat → String → String)
    (nlpO : Option Nlp) (N : Int) (prompt : String)
    (store : Nat → Except String Unit) (e : String)
    (hN : 1 ≤ N) (hs : store 1 = Except.error e) :
    generateAndImprove gen store nlpO N prompt = (Except.error e, 1) := by
  obtain ⟨f, hf⟩ : ∃ f, N.toNat = f + 1 := ⟨N.toNat - 1, by omega⟩
  simp only [generateAndImprove_eq, hf,
    engineLoop_store_err gen store nlpO f 0 (gen 0 prompt) StoryState.empty 1 e hs]

/-- Witness for C5 (amended) at bound 2. -/
theorem store_failure_propagates_witness :
    generateAndImprove (fun _ _ => "w") (fun _ => Except.error "db locked") none 2 "q"
      = (Except.error "db locked", 1) :=
  store_failure_propagates (fun _ _ => "w") none 2 "q"
    (fun _ => Except.error "db locked") "db locked" (by decide) rfl

/-- C8: whenever a run completes with at least one iteration record,
`total_violations_fixed` is exactly the first record's violation count
minus the last record's, as an integer — never clamped, so it is
negative when the last iteration has more violations than the
first. -/
theorem violations_fixed_formula (gen : Nat → String → String)
    (store : Nat → Except String Unit) (nlpO : Option Nlp) (N : Int)
    (prompt : String) (res : EngineResult) (c : Nat)
    (hrun : generateAndImprove gen store nlpO N prompt = (Except.ok res, c))
    (r0 rl : IterationData)
    (h0 : res.iterations.head? = some r0)
    (hl : res.iterations.getLast? = some rl) :
    res.total_violations_fixed
      = (r0.violation_count : Int) - (rl.violation_count : Int) := by
  rw [generateAndImprove_eq] at hrun
  cases hloop : engineLoop gen store nlpO N.toNat 0 (gen 0 prompt) StoryState.empty 1 with
  | mk exc c2 =>
    rw [hloop] at hrun
    cases exc with
    | error e => exact Except.noConfusion (congrArg Prod.fst hrun)
    | ok trip =>
      obtain ⟨recs, fin, stF⟩ := trip
      have h1 : Except.ok (⟨prompt, recs, fin, fixedOf recs⟩ : EngineResult)
          = Except.ok res := congrArg Prod.fst hrun
      have h2 : (⟨prompt, recs, fin, fixedOf recs⟩ : EngineResult) = res :=
        Except.ok.inj h1
      subst h2
      simp only at h0 hl ⊢
      simp only [fixedOf, h0, hl]

set_option maxRecDepth 10000 in
/-- Witness for C8: a concrete two-iteration run whose revision has
more violations than the original, so the metric is `1 - 2 = -1`. -/
theorem violations_fixed_formula_witness :
    demoRes.total_violations_fixed
      = ((demoRes.iterations.head?.getD dummyIter).violation_count : Int)
        - ((demoRes.iterations.getLast?.getD dummyIter).violation_count : Int) ∧
    demoRes.total_violations_fixed = -1 := by
  refine ⟨violations_fixed_formula demoGen okStore none 2 "p" demoRes demoRun.2
    (by rfl) (demoRes.iterations.head?.getD dummyIter)
    (demoRes.iterations.getLast?.getD dummyIter) (by rfl) (by rfl), by decide⟩

end Storyteller
